import Mathlib

/-!
Shallow embedding of the nllm concurrent fan-out execution engine
(`src/nllm/models.py`, `src/nllm/constants.py`, `src/nllm/utils.py`,
`src/nllm/core.py`) together with theorems settling the specification
claims about it.

External effects (process spawning, file writes, console rendering, real
time) are abstracted: an external process attempt is a value describing how
it behaved, durations are parameters, and the asyncio semaphore and the
live-status dictionary are modelled by an explicit event-trace semantics.
The `meta`/`json` fields of results (heterogeneous dictionaries) are not
modelled; no claim inspects them.
-/

namespace Nllm

/-- `pat` occurs as a contiguous run inside `hay`. -/
def containsSub : List Char → List Char → Bool
  | pat, [] => pat.isEmpty
  | pat, c :: rest => pat.isPrefixOf (c :: rest) || containsSub pat rest

/-- Substring test, Python's `pat in hay`. -/
def strContains (hay pat : String) : Bool :=
  containsSub pat.toList hay.toList

/-- Character-wise ASCII lower-casing (Python `str.lower` on ASCII text). -/
def toLowerStr (s : String) : String :=
  String.mk (s.toList.map Char.toLower)

/-- Split a character list on a separator (Python `str.split(sep)`). -/
def splitOnChar (sep : Char) : List Char → List (List Char)
  | [] => [[]]
  | c :: rest =>
    if c = sep then [] :: splitOnChar sep rest
    else
      match splitOnChar sep rest with
      | [] => [[c]]
      | h :: t => (c :: h) :: t

/-- The text ends with a newline character. -/
def endsWithNewline (s : String) : Bool :=
  s.toList.getLast? = some '\n'

/-- Join strings with a separator (Python `sep.join(parts)`). -/
def joinWith (sep : String) : List String → String
  | [] => ""
  | [x] => x
  | x :: y :: rest => x ++ sep ++ joinWith sep (y :: rest)

/-- ASCII whitespace. -/
def isWs (c : Char) : Bool :=
  c = ' ' || c = '\t' || c = '\n' || c = '\r'

/-- Strip leading and trailing whitespace (Python `str.strip`). -/
def trimStr (s : String) : String :=
  String.mk (((s.toList.dropWhile isWs).reverse.dropWhile isWs).reverse)

/-- `src/nllm/models.py` `ModelConfig`: one named model plus per-model options. -/
structure ModelConfig where
  name : String
  options : List String
deriving DecidableEq, Repr

/-- `src/nllm/models.py` `NllmConfig` (fields relevant to execution). -/
structure NllmConfig where
  models : List ModelConfig := []
  parallel : Nat := 4
  timeout : Option Nat := some 120
  retries : Nat := 0
  stream : Bool := true
deriving DecidableEq, Repr

/-- `src/nllm/models.py` `ModelResult` (the `meta`/`json` dict fields are omitted). -/
structure ModelResult where
  model : String
  status : String
  duration_ms : Nat
  exit_code : Int
  text : String
  command : List String := []
  stderr_tail : String := ""
deriving DecidableEq, Repr

/-- `src/nllm/constants.py` `TRANSIENT_ERROR_PATTERNS`. -/
def TRANSIENT_ERROR_PATTERNS : List String :=
  ["connection", "timeout", "5xx", "500 internal server error", "rate limit",
   "temporary", "backoff", "service unavailable", "gateway timeout",
   "too many requests"]

/-- `src/nllm/constants.py` `PERMANENT_ERROR_PATTERNS`. -/
def PERMANENT_ERROR_PATTERNS : List String :=
  ["invalid model", "authentication", "api key", "not found", "4xx",
   "unauthorized", "forbidden", "bad request"]

/-- `src/nllm/utils.py` `classify_error`: permanent patterns are checked first,
then transient patterns; unmatched stderr defaults to permanent (`false`). -/
def classify_error (stderr_content : String) : Bool :=
  let stderr_lower := toLowerStr stderr_content
  if PERMANENT_ERROR_PATTERNS.any (fun p => strContains stderr_lower p) then
    false
  else if TRANSIENT_ERROR_PATTERNS.any (fun p => strContains stderr_lower p) then
    true
  else
    false

/-- The scan in `src/nllm/utils.py` `construct_llm_command` lines 122-126:
`llm_args` already selects a model when some element equals `-m` or
`--model` and at least one element follows it. -/
def hasModelFlag : List String → Bool
  | [] => false
  | a :: rest => ((a = "-m" || a = "--model") && !rest.isEmpty) || hasModelFlag rest

/-- `src/nllm/utils.py` `construct_llm_command`. -/
def construct_llm_command (model : String) (llm_args : List String)
    (model_options : List String) : List String :=
  (["llm"] ++ (if hasModelFlag llm_args then [] else ["-m", model]))
    ++ model_options ++ llm_args

/-- Python `str.splitlines` restricted to newline-separated text. -/
def splitlines (s : String) : List String :=
  if s = "" then []
  else
    let parts := (splitOnChar '\n' s.toList).map String.mk
    if endsWithNewline s then parts.dropLast else parts

/-- `src/nllm/utils.py` `truncate_stderr`. -/
def truncate_stderr (stderr : String) (max_lines : Nat) : String :=
  let lines := splitlines stderr
  if lines.length ≤ max_lines then stderr
  else joinWith "\n" (lines.drop (lines.length - max_lines))

/-- The fixed redaction marker of `src/nllm/utils.py` `redact_secrets_from_args`. -/
def REDACTED : String := "***REDACTED***"

/-- The credential flags recognised by `redact_secrets_from_args` line 225. -/
def CRED_FLAGS : List String := ["--api-key", "--token", "--password", "--secret"]

/-- The key words of `redact_secrets_from_args` line 234. -/
def SECRET_WORDS : List String := ["key", "token", "password", "secret"]

/-- The part of `arg` before the first `=` (Python `arg.split("=", 1)[0]`). -/
def eqKey (arg : String) : String :=
  String.mk (arg.toList.takeWhile (fun c => c ≠ '='))

/-- The part of `arg` after the first `=` (Python `arg.split("=", 1)[1]`). -/
def eqValue (arg : String) : String :=
  String.mk (((arg.toList.dropWhile (fun c => c ≠ '=')).drop 1))

/-- Condition of the `key=value` branch of `redact_secrets_from_args`
lines 231-237: `arg` contains `=` and a secret word occurs in the
lower-cased key. -/
def eqSecretBranch (arg : String) : Bool :=
  arg.toList.contains '=' &&
    SECRET_WORDS.any (fun w => strContains (toLowerStr (eqKey arg)) w)

/-- ASCII letter or digit, the character class `[a-zA-Z0-9]`. -/
def isAlnumAscii (c : Char) : Bool :=
  (97 ≤ c.toNat && c.toNat ≤ 122) || (65 ≤ c.toNat && c.toNat ≤ 90) ||
    (48 ≤ c.toNat && c.toNat ≤ 57)

/-- Python `re.match(r"sk-[a-zA-Z0-9]{32,}", arg)`: `arg` starts with `sk-`
followed by at least 32 ASCII alphanumerics. -/
def matchSkPattern (arg : String) : Bool :=
  match arg.toList with
  | 's' :: 'k' :: '-' :: rest => 32 ≤ rest.length && (rest.take 32).all isAlnumAscii
  | _ => false

/-- Python `re.match(r"[a-zA-Z0-9]{32,}", arg)`: the first 32 characters of
`arg` exist and are ASCII alphanumerics. -/
def matchAlnum32 (arg : String) : Bool :=
  32 ≤ arg.toList.length && (arg.toList.take 32).all isAlnumAscii

/-- One iteration of the loop body of `redact_secrets_from_args`
(lines 218-244), given the `redact_next` state; returns the emitted
element and the new state. -/
def redactOne (redact_next : Bool) (arg : String) : String × Bool :=
  if redact_next then (REDACTED, false)
  else if CRED_FLAGS.contains (toLowerStr arg) then (arg, true)
  else if eqSecretBranch arg then (eqKey arg ++ "=" ++ REDACTED, false)
  else if matchSkPattern arg || matchAlnum32 arg then (REDACTED, false)
  else (arg, false)

/-- The loop of `redact_secrets_from_args` threading the `redact_next` state. -/
def redactAux : Bool → List String → List String
  | _, [] => []
  | b, a :: rest =>
    let step := redactOne b a
    step.1 :: redactAux step.2 rest

/-- `src/nllm/utils.py` `redact_secrets_from_args`. -/
def redact_secrets_from_args (args : List String) : List String :=
  redactAux false args

/-- The `redact_next` state after the loop of `redact_secrets_from_args` has
consumed a list of arguments. -/
def redactState : Bool → List String → Bool
  | b, [] => b
  | b, a :: rest => redactState (redactOne b a).2 rest

/-- The exceptions that escape one attempt of
`ModelExecutor._run_model` (`src/nllm/core.py`): `ExecutionError` with a
message, or `TimeoutError`. -/
inductive AttemptExc
  | execError (msg : String)
  | timeoutError
deriving DecidableEq, Repr

/-- Observable behaviour of the external process during one attempt:
the spawn fails (`FileNotFoundError`), the attempt exceeds the configured
timeout, or the process exits with a code and captured stdout/stderr. -/
inductive ProcBehavior
  | spawnFailure
  | timesOut
  | exits (exit_code : Int) (stdout stderr : String)
deriving DecidableEq, Repr

/-- `ModelExecutor._run_model` (`src/nllm/core.py` lines 113-207) as a
function of the process behaviour: spawn failure raises
`ExecutionError "llm command not found"`; a timeout raises `TimeoutError`
(after terminate/kill, not modelled); exit 0 returns an `ok` result with a
5-line stderr tail; a nonzero exit raises a retryable `ExecutionError`
when `classify_error` says transient, else returns an `error` result with
a 10-line stderr tail. -/
def run_model (model : String) (command : List String) (duration_ms : Nat) :
    ProcBehavior → Except AttemptExc ModelResult
  | .spawnFailure => .error (.execError "llm command not found")
  | .timesOut => .error .timeoutError
  | .exits code out err =>
    if code = 0 then
      .ok { model := model, status := "ok", duration_ms := duration_ms,
            exit_code := code, text := out, command := command,
            stderr_tail := truncate_stderr err 5 }
    else if classify_error err then
      .error (.execError ("Retryable error: " ++ truncate_stderr err 3))
    else
      .ok { model := model, status := "error", duration_ms := duration_ms,
            exit_code := code, text := out, command := command,
            stderr_tail := truncate_stderr err 10 }

/-- The loop of `src/nllm/utils.py` `retry_with_backoff`, with `attempt` the
current attempt index and `remaining` the retries still allowed: a raised
exception is re-raised once `attempt == max_retries`, otherwise the next
attempt runs (after a backoff sleep, not modelled). Any returned value
stops the loop. -/
def retryAux (f : Nat → Except AttemptExc ModelResult) :
    Nat → Nat → Except AttemptExc ModelResult
  | attempt, 0 => f attempt
  | attempt, remaining + 1 =>
    match f attempt with
    | .ok r => .ok r
    | .error _ => retryAux f (attempt + 1) remaining

/-- `src/nllm/utils.py` `retry_with_backoff` (delays abstracted away). -/
def retry_with_backoff (f : Nat → Except AttemptExc ModelResult)
    (max_retries : Nat) : Except AttemptExc ModelResult :=
  retryAux f 0 max_retries

/-- `ModelExecutor._create_timeout_result` (`src/nllm/core.py` lines 253-269). -/
def create_timeout_result (model : String) (command : List String)
    (timeout : Option Nat) (duration_ms : Nat) : ModelResult :=
  { model := model, status := "timeout", duration_ms := duration_ms,
    exit_code := -1, text := "", command := command,
    stderr_tail :=
      match timeout with
      | some t => "Timeout after " ++ toString t ++ " seconds"
      | none => "Timeout after unknown seconds" }

/-- `ModelExecutor._create_error_result` (`src/nllm/core.py` lines 271-287). -/
def create_error_result (model : String) (command : List String)
    (error_message : String) (duration_ms : Nat) : ModelResult :=
  { model := model, status := "error", duration_ms := duration_ms,
    exit_code := -1, text := "", command := command,
    stderr_tail := truncate_stderr error_message 5 }

/-- Control flow of `ModelExecutor.execute` (`src/nllm/core.py` lines 61-91)
after the dry-run check, given the outcome of each attempt: with
`retries > 0` the attempts run under `retry_with_backoff`, otherwise a
single attempt runs; an escaping `TimeoutError` becomes the timeout
result and any other escaping exception becomes an error result. -/
def executeRetries (retries : Nat)
    (attempts : Nat → Except AttemptExc ModelResult) (model : String)
    (command : List String) (timeout : Option Nat) (duration_ms : Nat) :
    ModelResult :=
  match (if retries > 0 then retry_with_backoff attempts retries else attempts 0) with
  | .ok r => r
  | .error .timeoutError => create_timeout_result model command timeout duration_ms
  | .error (.execError msg) => create_error_result model command msg duration_ms

/-- `ModelExecutor.execute` for a non-dry run, with the external process
behaviour of each attempt given by `behaviors`. -/
def executeModel (retries : Nat) (behaviors : Nat → ProcBehavior)
    (model : String) (command : List String) (timeout : Option Nat)
    (duration_ms : Nat) : ModelResult :=
  executeRetries retries
    (fun k => run_model model command duration_ms (behaviors k))
    model command timeout duration_ms

/-- `asyncio.gather` result collection (`src/nllm/core.py` lines 358-365):
each task's result is stored at the slot of its task index as the tasks
complete, in completion order `order`; slots of tasks that never complete
stay `none`. -/
def gather_collect (n : Nat) (f : Fin n → ModelResult) (order : List (Fin n)) :
    List (Option ModelResult) :=
  order.foldl (fun acc i => acc.set i.val (some (f i))) (List.replicate n none)

/-- Result collection of `NllmExecutor.execute_all` (`src/nllm/core.py`
lines 327-371): raises `ExecutionError "No models specified"` on an empty
model list, otherwise gathers one result per spec, assembled by task
index whatever the completion order. Artifact saving is external. -/
def execute_all_results (models : List ModelConfig)
    (runOne : ModelConfig → ModelResult) (order : List (Fin models.length)) :
    Except String (List (Option ModelResult)) :=
  if models.isEmpty then .error "No models specified"
  else .ok (gather_collect models.length (fun i => runOne (models.get i)) order)

/-- The semaphore size used by `NllmExecutor.execute_all`
(`src/nllm/core.py` lines 335 and 351): the literal `4`, independent of
`NllmConfig.parallel`. -/
def execute_all_semaphore_size : Nat := 4

/-- Events of the counting-semaphore protocol of `execute_all`: model task
`i` acquires the semaphore before its `ModelExecutor.execute` starts and
releases it when the executor finishes. -/
inductive SemEvent
  | acquire (i : Nat)
  | release (i : Nat)
deriving DecidableEq, Repr

/-- One semaphore event applied to the set of currently running tasks. -/
def stepHeld (held : List Nat) : SemEvent → List Nat
  | .acquire i => i :: held
  | .release i => held.erase i

/-- A trace of semaphore events is admissible for capacity `cap` from the
running set `held`: an acquire only proceeds while fewer than `cap` tasks
hold the semaphore (and a task holds it at most once), and only a holder
releases. This is exactly the set of interleavings `asyncio.Semaphore cap`
permits. -/
def semOk (cap : Nat) : List Nat → List SemEvent → Bool
  | _, [] => true
  | held, .acquire i :: rest =>
    decide (held.length < cap) && !held.contains i && semOk cap (i :: held) rest
  | held, .release i :: rest =>
    held.contains i && semOk cap (held.erase i) rest

/-- Admissibility of a full trace, starting from no running tasks. -/
def admissible (cap : Nat) (t : List SemEvent) : Bool := semOk cap [] t

/-- Largest number of simultaneously running tasks along a trace. -/
def maxHeld (held : List Nat) : List SemEvent → Nat
  | [] => held.length
  | e :: rest => max held.length (maxHeld (stepHeld held e) rest)

/-- Largest number of simultaneously running tasks of a full trace. -/
def maxRunning (t : List SemEvent) : Nat := maxHeld [] t

/-- Status-map initialisation of `execute_all` (`src/nllm/core.py`
lines 342-348): every model name is mapped to status `"running"` before
any task starts. -/
def init_model_status (models : List ModelConfig) : String → Option String :=
  fun n => if models.any (fun m => m.name = n) then some "running" else none

/-- The terminal status written by
`NllmExecutor._run_single_model_with_progress` (`src/nllm/core.py`
lines 404-423) for a finished result status. -/
def status_of_result (result_status : String) : String :=
  if result_status = "ok" then "completed"
  else if result_status = "timeout" then "timeout"
  else "error"

/-- One completion event applied to the status map: the finishing model's
entry is overwritten with its terminal status (under `update_lock`, so
events are serialised). -/
def update_status (st : String → Option String) (name result_status : String) :
    String → Option String :=
  fun n => if n = name then some (status_of_result result_status) else st n

/-- The status map after initialisation and a serialised list of completion
events `(model name, result status)`. -/
def run_status_trace (models : List ModelConfig)
    (events : List (String × String)) : String → Option String :=
  events.foldl (fun st e => update_status st e.1 e.2) (init_model_status models)

/-- `NllmExecutor.get_exit_code` (`src/nllm/core.py` lines 472-482). -/
def get_exit_code (dry_run : Bool) (results : List ModelResult) : Nat :=
  if dry_run then 0
  else if results.any (fun r => r.status = "error" || r.status = "timeout") then 1
  else 0

/-- Parsed JSON values (numbers restricted to integers; the JSON grammar
itself is abstracted by a parse function below). -/
inductive JsonValue
  | obj (fields : List (String × JsonValue))
  | arr (items : List JsonValue)
  | str (s : String)
  | num (n : Int)
  | boolean (b : Bool)
  | null

/-- A parsed value counts as a valid extraction target only when it is an
object or an array; bare scalars do not. -/
def isStructured : JsonValue → Bool
  | .obj _ => true
  | .arr _ => true
  | _ => false

/-- A fenced code block: optional language tag and body. -/
structure FencedBlock where
  tag : Option String
  body : String
deriving DecidableEq, Repr

/-- The backtick character (codepoint 96). -/
def isTick (c : Char) : Bool := c.toNat = 96

/-- Modelled from the spec: scanning step of the JSON Extractor
(`extract_json_from_text`, imported by `src/nllm/core.py` but not present
under `src/`): drop the scanned text up to and past the first run of three
backticks, or return `none` when there is no fence. -/
def findFence : List Char → Option (List Char)
  | c1 :: rest =>
    match rest with
    | c2 :: c3 :: rest2 =>
      if isTick c1 && isTick c2 && isTick c3 then some rest2 else findFence rest
    | _ => none
  | [] => none

/-- Split off the first line (the fence's language-tag line) from the
characters that follow it. -/
def takeLine (cs : List Char) : List Char × List Char :=
  (cs.takeWhile (fun c => c ≠ '\n'), (cs.dropWhile (fun c => c ≠ '\n')).drop 1)

/-- Modelled from the spec: the body of a fenced block runs until the
closing run of three backticks; a block with no closing fence yields
`none`. Returns the body and the characters after the closing fence. -/
def takeBody : List Char → Option (List Char × List Char)
  | c1 :: rest =>
    match rest with
    | c2 :: c3 :: rest2 =>
      if isTick c1 && isTick c2 && isTick c3 then some ([], rest2)
      else
        match takeBody rest with
        | some (b, a) => some (c1 :: b, a)
        | none => none
    | _ => none
  | [] => none

/-- Build a fenced block from its tag line and body; a blank tag line means
an untagged block. -/
def mkBlock (tagLine body : List Char) : FencedBlock :=
  let tag := trimStr (String.mk tagLine)
  { tag := if tag = "" then none else some tag, body := String.mk body }

/-- Modelled from the spec: collect the fenced code blocks of a text in
source order (fuel-indexed recursion; the fuel is the text length, enough
for every fence). -/
def scanBlocksAux : Nat → List Char → List FencedBlock
  | 0, _ => []
  | fuel + 1, cs =>
    match findFence cs with
    | none => []
    | some afterOpen =>
      let tagLine := takeLine afterOpen
      match takeBody tagLine.2 with
      | none => []
      | some (body, after) => mkBlock tagLine.1 body :: scanBlocksAux fuel after

/-- Modelled from the spec: "Scan for fenced code blocks delimited by triple
backticks. For each block, in source order, record its optional language
tag (case-insensitive) and its body." -/
def scanFencedBlocks (text : String) : List FencedBlock :=
  scanBlocksAux text.toList.length text.toList

/-- The block's tag is exactly `json`, case-insensitively. -/
def isJsonTagged (b : FencedBlock) : Bool :=
  match b.tag with
  | some t => toLowerStr t = "json"
  | none => false

/-- The block carries no language tag. -/
def isUntagged (b : FencedBlock) : Bool := b.tag.isNone

/-- Modelled from the spec: the parse priority over fenced blocks — blocks
tagged exactly `json` first (source order), then untagged blocks (source
order), then any remaining blocks. -/
def orderBlocks (blocks : List FencedBlock) : List FencedBlock :=
  blocks.filter isJsonTagged ++ blocks.filter isUntagged
    ++ blocks.filter (fun b => !isJsonTagged b && !isUntagged b)

/-- Parse one block body with the given JSON parser, keeping only object or
array results. -/
def parseStructured (parse : String → Option JsonValue) (b : FencedBlock) :
    Option JsonValue :=
  match parse b.body with
  | some v => if isStructured v then some v else none
  | none => none

/-- Modelled from the spec: "Return the first body that parses successfully
as JSON and whose parsed shape is an object or array", trying blocks in
the priority order. -/
def tryParseFencedBlocks (parse : String → Option JsonValue)
    (blocks : List FencedBlock) : Option JsonValue :=
  (orderBlocks blocks).findSome? (parseStructured parse)

/-- Modelled from the spec: step 3 of the JSON Extractor (the
fenced-code-block step), parameterised by the JSON grammar `parse`. -/
def extract_json_fenced_step (parse : String → Option JsonValue)
    (text : String) : Option JsonValue :=
  tryParseFencedBlocks parse (scanFencedBlocks text)

/-- A toy JSON grammar used to exercise the extractor on concrete texts. -/
def sampleParse : String → Option JsonValue :=
  fun s => if s = "AAA\n" then some (.arr []) else none

/-- C8: the Error Classifier returns transient (`true`) for
`"Connection timeout"`, permanent (`false`) for `"Invalid API key"`, and
permanent for the unmatched `"unknown gremlin"` (the default). -/
theorem classify_error_examples :
    classify_error "Connection timeout" = true ∧
    classify_error "Invalid API key" = false ∧
    classify_error "unknown gremlin" = false := by
  refine ⟨by decide, by decide, by decide⟩

/-- C1: the claim bounds the number of simultaneously running models by the
configured concurrency limit, but `execute_all` sizes its semaphore with
the literal `4` and never reads `NllmConfig.parallel`; with `parallel = 1`
and two models, the semaphore allows a schedule in which both models run
at once. -/
theorem semaphore_ignores_parallel_config :
    admissible execute_all_semaphore_size
        [.acquire 0, .acquire 1, .release 0, .release 1] = true ∧
    maxRunning [.acquire 0, .acquire 1, .release 0, .release 1] = 2 ∧
    ({ models := [{ name := "m1", options := [] }, { name := "m2", options := [] }],
       parallel := 1 : NllmConfig }).parallel = 1 ∧
    execute_all_semaphore_size ≠
      ({ models := [{ name := "m1", options := [] }, { name := "m2", options := [] }],
         parallel := 1 : NllmConfig }).parallel := by
  refine ⟨by decide, by decide, by decide, by decide⟩

/-- C2: the claim says a timed-out or spawn-failed attempt is never retried
and a timeout surfaces immediately, but `retry_with_backoff` catches every
exception: with `retries = 1`, a first attempt that raises `TimeoutError`
(or the spawn-failure `ExecutionError`) is retried and a succeeding second
attempt yields status `"ok"`; only with `retries = 0` does the timeout
surface directly. -/
theorem timeout_and_spawn_failure_retried :
    (executeModel 1 (fun k => if k = 0 then .timesOut else .exits 0 "hello" "")
        "m" ["llm", "-m", "m"] (some 30) 0).status = "ok" ∧
    (executeModel 1 (fun k => if k = 0 then .spawnFailure else .exits 0 "hello" "")
        "m" ["llm", "-m", "m"] (some 30) 0).status = "ok" ∧
    (executeModel 0 (fun _ => .timesOut)
        "m" ["llm", "-m", "m"] (some 30) 0).status = "timeout" := by
  refine ⟨rfl, rfl, rfl⟩

/-- Membership form of the failure scan in `get_exit_code`. -/
theorem any_failed_iff (results : List ModelResult) :
    (results.any (fun r => r.status = "error" || r.status = "timeout") = true) ↔
      ∃ r ∈ results, r.status = "error" ∨ r.status = "timeout" := by
  simp [List.any_eq_true]

/-- C7: the aggregate exit status is nonzero iff some outcome has status
`error` or `timeout` (when not a dry run); it is zero when every outcome
is `ok`; and a dry run always exits zero. -/
theorem get_exit_code_spec (dry : Bool) (results : List ModelResult) :
    (dry = false →
      (get_exit_code dry results ≠ 0 ↔
        ∃ r ∈ results, r.status = "error" ∨ r.status = "timeout")) ∧
    ((∀ r ∈ results, r.status = "ok") → get_exit_code dry results = 0) ∧
    (dry = true → get_exit_code dry results = 0) := by
  have hcompute : get_exit_code false results
      = if results.any (fun r => r.status = "error" || r.status = "timeout") then 1
        else 0 := by
    simp [get_exit_code]
  refine ⟨?_, ?_, ?_⟩
  · rintro rfl
    by_cases h : results.any (fun r => r.status = "error" || r.status = "timeout") = true
    · rw [hcompute, if_pos h]
      exact iff_of_true one_ne_zero ((any_failed_iff results).mp h)
    · rw [hcompute, if_neg h]
      exact iff_of_false (by simp) (fun hex => h ((any_failed_iff results).mpr hex))
  · intro hok
    cases dry with
    | true => simp [get_exit_code]
    | false =>
      have hne : ¬(results.any (fun r => r.status = "error" || r.status = "timeout") = true) :=
        fun hany => by
          obtain ⟨r, hr, hcase⟩ := (any_failed_iff results).mp hany
          rcases hcase with h1 | h1 <;> rw [hok r hr] at h1 <;> exact absurd h1 (by decide)
      rw [hcompute, if_neg hne]
  · rintro rfl
    simp [get_exit_code]

/-- Witness for C7: one timed-out outcome makes the exit status nonzero. -/
theorem get_exit_code_spec_witness :
    get_exit_code false
      [{ model := "a", status := "timeout", duration_ms := 0,
         exit_code := -1, text := "" }] ≠ 0 :=
  ((get_exit_code_spec false
      [{ model := "a", status := "timeout", duration_ms := 0,
         exit_code := -1, text := "" }]).1 rfl).mpr
    ⟨{ model := "a", status := "timeout", duration_ms := 0,
       exit_code := -1, text := "" }, by simp, Or.inr rfl⟩

/-- Existence form of the model-selector scan of `construct_llm_command`. -/
theorem hasModelFlag_iff (l : List String) :
    hasModelFlag l = true ↔
      ∃ i, (l.get? i = some "-m" ∨ l.get? i = some "--model") ∧ i + 1 < l.length := by
  induction l with
  | nil => simp [hasModelFlag]
  | cons a rest ih =>
    simp only [hasModelFlag, Bool.or_eq_true, Bool.and_eq_true, decide_eq_true_eq,
      Bool.not_eq_true']
    constructor
    · rintro (⟨hflag, hne⟩ | hrest)
      · refine ⟨0, ?_, ?_⟩
        · rcases hflag with h | h <;> simp [h]
        · have : rest ≠ [] := by
            intro hnil
            rw [hnil] at hne
            simp at hne
          have := List.length_pos.mpr this
          simp only [List.length_cons]
          omega
      · obtain ⟨i, hget, hlen⟩ := ih.mp hrest
        refine ⟨i + 1, by simpa using hget, ?_⟩
        simp only [List.length_cons]
        omega
    · rintro ⟨i, hget, hlen⟩
      cases i with
      | zero =>
        left
        simp only [List.get?_cons_zero, Option.some.injEq] at hget
        refine ⟨hget, ?_⟩
        cases rest with
        | nil => simp at hlen
        | cons b tail => rfl
      | succ j =>
        right
        refine ih.mpr ⟨j, by simpa using hget, ?_⟩
        simp only [List.length_cons] at hlen
        omega

/-- C4: the constructed command is `[llm, -m, name] ++ options ++ sharedArgs`,
except that when `sharedArgs` contains `-m`/`--model` followed by at least
one further element the selector and name are omitted and the command is
`[llm] ++ options ++ sharedArgs`. -/
theorem construct_llm_command_spec (model : String) (opts shared : List String) :
    ((∃ i, (shared.get? i = some "-m" ∨ shared.get? i = some "--model") ∧
        i + 1 < shared.length) →
      construct_llm_command model shared opts = ["llm"] ++ opts ++ shared) ∧
    (¬(∃ i, (shared.get? i = some "-m" ∨ shared.get? i = some "--model") ∧
        i + 1 < shared.length) →
      construct_llm_command model shared opts = ["llm", "-m", model] ++ opts ++ shared) := by
  constructor
  · intro hex
    have h : hasModelFlag shared = true := (hasModelFlag_iff shared).mpr hex
    simp [construct_llm_command, h]
  · intro hnex
    have h : hasModelFlag shared = false := by
      cases hh : hasModelFlag shared
      · rfl
      · exact absurd ((hasModelFlag_iff shared).mp hh) hnex
    simp [construct_llm_command, h]

/-- Witness for C4: with `-m claude` already among the shared arguments, the
selector is not injected and options still precede the shared arguments. -/
theorem construct_llm_command_spec_witness :
    construct_llm_command "gpt-4" ["-m", "claude", "hi"] ["-t"] =
      ["llm", "-t", "-m", "claude", "hi"] := by
  have h := (construct_llm_command_spec "gpt-4" ["-t"] ["-m", "claude", "hi"]).1
    ⟨0, Or.inl rfl, by decide⟩
  simpa using h

/-- Splitting the redaction loop across a list append. -/
theorem redactAux_append (b : Bool) (xs ys : List String) :
    redactAux b (xs ++ ys) = redactAux b xs ++ redactAux (redactState b xs) ys := by
  induction xs generalizing b with
  | nil => simp [redactAux, redactState]
  | cons a rest ih => simp [redactAux, redactState, ih]

/-- The redaction loop emits exactly one element per input element. -/
theorem redactAux_length (b : Bool) (xs : List String) :
    (redactAux b xs).length = xs.length := by
  induction xs generalizing b with
  | nil => simp [redactAux]
  | cons a rest ih => simp [redactAux, ih]

/-- C9 (amended): the value directly following a credential flag — when the
flag itself is not consumed as the value of an immediately preceding
credential flag — is replaced by the fixed marker `***REDACTED***`; other
elements are processed independently, so the secret may survive inside
them. -/
theorem redact_flag_value_replaced (pre post : List String) (flag secret : String)
    (hflag : CRED_FLAGS.contains (toLowerStr flag) = true)
    (hstate : redactState false pre = false) :
    redact_secrets_from_args (pre ++ flag :: secret :: post) =
      redact_secrets_from_args pre ++ flag :: REDACTED :: redactAux false post ∧
    (redact_secrets_from_args (pre ++ flag :: secret :: post)).get? (pre.length + 1) =
      some REDACTED := by
  have hmain : redact_secrets_from_args (pre ++ flag :: secret :: post) =
      redact_secrets_from_args pre ++ flag :: REDACTED :: redactAux false post := by
    unfold redact_secrets_from_args
    rw [redactAux_append, hstate]
    have hflagMem : toLowerStr flag ∈ CRED_FLAGS := by simpa using hflag
    simp [redactAux, redactOne, hflagMem]
  refine ⟨hmain, ?_⟩
  rw [hmain]
  have hlen : (redact_secrets_from_args pre).length = pre.length :=
    redactAux_length false pre
  rw [List.get?_append_right (by omega)]
  simp [hlen]

/-- Counterexample to C9 as stated: the value after `--api-key` is replaced,
but the secret also occurs inside a later element, which is left
unchanged, so the redacted vector still contains the secret as a
substring of one of its elements. -/
theorem redact_secret_substring_survives :
    redact_secrets_from_args ["--api-key", "s3cretz", "echo s3cretz"] =
      ["--api-key", "***REDACTED***", "echo s3cretz"] ∧
    strContains "echo s3cretz" "s3cretz" = true ∧
    ("s3cretz" : String) ≠ "***REDACTED***" := by
  refine ⟨by decide, by decide, by decide⟩

/-- Witness for C9: a flag/value pair at the head of the vector. -/
theorem redact_flag_value_replaced_witness :
    redact_secrets_from_args ["--api-key", "hunter2"] = ["--api-key", "***REDACTED***"] := by
  have h := (redact_flag_value_replaced [] [] "--api-key" "hunter2" (by decide) rfl).1
  simpa [redact_secrets_from_args, redactAux, REDACTED] using h

/-- Position-wise effect of the redaction loop on arguments matching the
API-key patterns, for any incoming `redact_next` state. -/
theorem redactAux_pattern_get (args : List String) :
    ∀ (i : Nat) (b : Bool) (arg : String),
      args.get? i = some arg →
      (matchSkPattern arg || matchAlnum32 arg) = true →
      CRED_FLAGS.contains (toLowerStr arg) = false →
      eqSecretBranch arg = false →
      (redactAux b args).get? i = some REDACTED := by
  induction args with
  | nil =>
    intro i b arg hget _ _ _
    simp at hget
  | cons a rest ih =>
    intro i b arg hget hpat hflag heq
    cases i with
    | zero =>
      simp only [List.get?_cons_zero, Option.some.injEq] at hget
      subst hget
      cases b with
      | true => simp [redactAux, redactOne]
      | false =>
        have hflagMem : ¬(toLowerStr a ∈ CRED_FLAGS) := by simpa using hflag
        simp [redactAux, redactOne, hflagMem, heq, hpat]
    | succ j =>
      simp only [List.get?_cons_succ] at hget
      simpa [redactAux] using ih j _ arg hget hpat hflag heq

/-- C10 (amended): an argument that matches the API-key patterns (starts
with 32+ ASCII alphanumerics, or with `sk-` followed by 32+ of them), is
not itself a credential flag, and does not contain `=` with a credential
word in its key part, is displayed as the redaction marker in its
entirety — wherever it sits in the vector and whether or not a credential
flag precedes it. -/
theorem redact_pattern_entire (args : List String) (i : Nat) (arg : String)
    (hget : args.get? i = some arg)
    (hpat : (matchSkPattern arg || matchAlnum32 arg) = true)
    (hflag : CRED_FLAGS.contains (toLowerStr arg) = false)
    (heq : eqSecretBranch arg = false) :
    (redact_secrets_from_args args).get? i = some REDACTED :=
  redactAux_pattern_get args i false arg hget hpat hflag heq

/-- Counterexample to C10 as stated: an argument beginning with 32+
alphanumerics that also contains `=` with a credential word in its key is
redacted only in its value part (`key=***REDACTED***`), not replaced in
its entirety. -/
theorem redact_pattern_key_eq_not_entire :
    redact_secrets_from_args ["aaaaaaaaaaaaaaaaaaaaaaaaaaaaaaaakey=v"] =
      ["aaaaaaaaaaaaaaaaaaaaaaaaaaaaaaaakey=***REDACTED***"] ∧
    matchAlnum32 "aaaaaaaaaaaaaaaaaaaaaaaaaaaaaaaakey=v" = true ∧
    redact_secrets_from_args ["aaaaaaaaaaaaaaaaaaaaaaaaaaaaaaaakey=v"] ≠
      ["***REDACTED***"] := by
  refine ⟨by decide, by decide, by decide⟩

/-- Witness for C10: a bare 32-character alphanumeric argument (for example
a model name) is displayed as the marker. -/
theorem redact_pattern_entire_witness :
    (redact_secrets_from_args ["bbbbbbbbbbbbbbbbbbbbbbbbbbbbbbbb"]).get? 0 =
      some REDACTED :=
  redact_pattern_entire ["bbbbbbbbbbbbbbbbbbbbbbbbbbbbbbbb"] 0
    "bbbbbbbbbbbbbbbbbbbbbbbbbbbbbbbb" (by decide) (by decide) (by decide) (by decide)

/-- The slot-filling fold of `gather_collect` keeps the slot count. -/
theorem gather_foldl_length (n : Nat) (f : Fin n → ModelResult)
    (order : List (Fin n)) (acc : List (Option ModelResult)) :
    (order.foldl (fun a j => a.set j.val (some (f j))) acc).length = acc.length := by
  induction order generalizing acc with
  | nil => rfl
  | cons j rest ih => simp [List.foldl_cons, ih, List.length_set]

/-- Slot `i` of the fold holds task `i`'s result once task `i` has completed,
whatever the completion order. -/
theorem gather_foldl_get? (n : Nat) (f : Fin n → ModelResult)
    (order : List (Fin n)) (acc : List (Option ModelResult))
    (hlen : acc.length = n) (i : Fin n) :
    (order.foldl (fun a j => a.set j.val (some (f j))) acc).get? i.val =
      if i ∈ order then some (some (f i)) else acc.get? i.val := by
  induction order generalizing acc with
  | nil => simp
  | cons j rest ih =>
    simp only [List.foldl_cons]
    rw [ih (acc.set j.val (some (f j))) (by simp [List.length_set, hlen])]
    by_cases hmem : i ∈ rest
    · simp [hmem, List.mem_cons]
    · by_cases hij : i = j
      · subst hij
        rw [if_neg hmem, if_pos (List.mem_cons_self i rest)]
        rw [List.get?_set_eq]
        rw [List.get?_eq_get (by omega)]
        rfl
      · rw [if_neg hmem, if_neg (by simp [List.mem_cons, hij, hmem])]
        exact List.get?_set_ne _ _ (fun hv => hij (Fin.ext hv).symm)

/-- When every task index completes, the gathered slots are exactly the
per-index results, in index order. -/
theorem gather_collect_complete (n : Nat) (f : Fin n → ModelResult)
    (order : List (Fin n)) (hcover : ∀ i : Fin n, i ∈ order) :
    gather_collect n f order = (List.finRange n).map (fun i => some (f i)) := by
  apply List.ext_get?
  intro k
  by_cases hk : k < n
  · have hL := gather_foldl_get? n f order (List.replicate n none) (by simp) ⟨k, hk⟩
    unfold gather_collect
    rw [hL, if_pos (hcover ⟨k, hk⟩)]
    rw [List.get?_map, List.get?_eq_get (show k < (List.finRange n).length by simp [hk])]
    rw [List.get_finRange]
    rfl
  · have h1 : (gather_collect n f order).length ≤ k := by
      unfold gather_collect
      rw [gather_foldl_length]
      simp
      omega
    rw [List.get?_eq_none.mpr h1, List.get?_eq_none.mpr (by simp; omega)]

/-- C3: for a nonempty model list, `execute_all` returns exactly one outcome
per spec in the caller's original order, whatever the completion order;
for the empty list it raises `ExecutionError "No models specified"` before
any run starts. -/
theorem execute_all_spec (models : List ModelConfig)
    (runOne : ModelConfig → ModelResult) (order : List (Fin models.length))
    (hcover : ∀ i : Fin models.length, i ∈ order) :
    (models = [] →
      execute_all_results models runOne order = .error "No models specified") ∧
    (models ≠ [] →
      execute_all_results models runOne order = .ok ((models.map runOne).map some) ∧
      ((models.map runOne).map some).length = models.length) := by
  constructor
  · rintro rfl
    rfl
  · intro hne
    have hempty : models.isEmpty = false := by
      cases models with
      | nil => exact absurd rfl hne
      | cons a rest => rfl
    constructor
    · unfold execute_all_results
      rw [if_neg (by simp [hempty])]
      rw [gather_collect_complete _ _ _ hcover]
      have hmaps : (List.finRange models.length).map (fun i => some (runOne (models.get i)))
          = ((List.finRange models.length).map models.get).map (fun m => some (runOne m)) := by
        rw [List.map_map]
        rfl
      rw [hmaps, List.finRange_map_get, List.map_map]
      rfl
    · simp

/-- Witness for C3: two models whose tasks complete in reverse order still
yield results in input order. -/
theorem execute_all_spec_witness :
    execute_all_results [{ name := "a", options := [] }, { name := "b", options := [] }]
        (fun m => { model := m.name, status := "ok", duration_ms := 0,
                    exit_code := 0, text := "" })
        [⟨1, by decide⟩, ⟨0, by decide⟩] =
      .ok [some { model := "a", status := "ok", duration_ms := 0, exit_code := 0, text := "" },
           some { model := "b", status := "ok", duration_ms := 0, exit_code := 0, text := "" }] := by
  have h := (execute_all_spec
      [{ name := "a", options := [] }, { name := "b", options := [] }]
      (fun m => { model := m.name, status := "ok", duration_ms := 0,
                  exit_code := 0, text := "" })
      [⟨1, by decide⟩, ⟨0, by decide⟩] (by decide)).2 (by simp)
  rw [h.1]
  rfl

/-- Completion events of other models never touch a model's status entry. -/
theorem foldl_update_not_mem (st : String → Option String)
    (evs : List (String × String)) (n : String)
    (h : ∀ e ∈ evs, e.1 ≠ n) :
    evs.foldl (fun st e => update_status st e.1 e.2) st n = st n := by
  induction evs generalizing st with
  | nil => rfl
  | cons e rest ih =>
    simp only [List.foldl_cons]
    rw [ih _ (fun x hx => h x (List.mem_cons_of_mem _ hx))]
    have hne : n ≠ e.1 := fun hh => h e (List.mem_cons_self _ _) hh.symm
    simp [update_status, hne]

/-- C6 (amended): the coordinator creates each model's status entry already
in phase `running` (there is no pending phase) before any completion; the
entry still reads `running` until that model's own completion event; and
for distinct model names it transitions exactly once, at its completion
event, to its terminal status (`completed`, `timeout` or `error`) and
never changes afterwards. Entries are keyed by model name, so with
duplicate-named specs the shared entry is overwritten by each duplicate's
completion and a terminal status need not be final (see the
counterexample). -/
theorem status_trace_spec (models : List ModelConfig)
    (pre post : List (String × String)) (n r : String)
    (hname : ∃ mc ∈ models, mc.name = n)
    (hnodup : ((pre ++ (n, r) :: post).map Prod.fst).Nodup) :
    (∀ m, (∃ mc ∈ models, mc.name = m) →
      run_status_trace models [] m = some "running") ∧
    (∀ k, run_status_trace models (pre.take k) n = some "running") ∧
    (∀ k, run_status_trace models (pre ++ (n, r) :: post.take k) n =
      some (status_of_result r)) := by
  have hinit : ∀ m, (∃ mc ∈ models, mc.name = m) →
      run_status_trace models [] m = some "running" := by
    intro m hm
    have hany : models.any (fun mc => mc.name = m) = true := by
      obtain ⟨mc, hmc, hmname⟩ := hm
      exact List.any_eq_true.mpr ⟨mc, hmc, by simp [hmname]⟩
    unfold run_status_trace init_model_status
    simp only [List.foldl_nil]
    simp [hany]
  have hnpre : n ∉ pre.map Prod.fst := by
    rw [List.map_append, List.map_cons] at hnodup
    have hdisj := List.disjoint_of_nodup_append hnodup
    exact fun hmem => hdisj hmem (List.mem_cons_self n (post.map Prod.fst))
  refine ⟨hinit, ?_, ?_⟩
  · intro k
    unfold run_status_trace
    rw [foldl_update_not_mem]
    · exact hinit n hname
    · intro e he
      have hepre : e ∈ pre := List.take_subset k pre he
      intro h1
      exact hnpre (h1 ▸ List.mem_map_of_mem Prod.fst hepre)
  · intro k
    unfold run_status_trace
    rw [List.foldl_append]
    simp only [List.foldl_cons]
    rw [foldl_update_not_mem]
    · simp [update_status]
    · intro e he
      have hepost : e ∈ post := List.take_subset k post he
      have hnd : (n :: post.map Prod.fst).Nodup := by
        rw [List.map_append, List.map_cons] at hnodup
        exact hnodup.of_append_right
      have hnotmem : n ∉ post.map Prod.fst := (List.nodup_cons.mp hnd).1
      intro h1
      exact hnotmem (h1 ▸ List.mem_map_of_mem Prod.fst hepost)

/-- Counterexample to C6 as stated: before any run starts, the coordinator's
entry for a model is already in phase `running`, not in a `pending`
phase; and for two specs sharing the name `a` (duplicates are permitted
and not deduplicated) whose runs complete as `ok` then `timeout`, the
shared entry first reaches the terminal status `completed` and is then
overwritten with `timeout`, so a terminal phase re-appears after another
terminal phase was entered. -/
theorem status_not_pending_and_terminal_overwritten :
    run_status_trace [{ name := "m", options := [] }] [] "m" = some "running" ∧
    ("running" : String) ≠ "pending" ∧
    run_status_trace [{ name := "a", options := [] }, { name := "a", options := [] }]
        [("a", "ok")] "a" = some "completed" ∧
    run_status_trace [{ name := "a", options := [] }, { name := "a", options := [] }]
        [("a", "ok"), ("a", "timeout")] "a" = some "timeout" ∧
    ("completed" : String) ≠ "timeout" := by
  refine ⟨rfl, by decide, rfl, rfl, by decide⟩

/-- Witness for C6: a single model stays `running` before its completion and
ends in the terminal phase `completed` after completing with status
`ok`. -/
theorem status_trace_spec_witness :
    run_status_trace [{ name := "a", options := [] }] [] "a" = some "running" ∧
    run_status_trace [{ name := "a", options := [] }] [("a", "ok")] "a" =
      some "completed" := by
  have h := status_trace_spec [{ name := "a", options := [] }] [] [] "a" "ok"
    ⟨{ name := "a", options := [] }, by simp, rfl⟩ (by simp)
  refine ⟨h.2.1 0, ?_⟩
  have h2 := h.2.2 0
  simpa [status_of_result] using h2

/-- `findSome?` returns a value exactly when some element maps to it and
every earlier element maps to `none`. -/
theorem findSome?_first {α β : Type} (f : α → Option β) (l : List α) (v : β) :
    l.findSome? f = some v ↔
      ∃ i a, l.get? i = some a ∧ f a = some v ∧
        ∀ j b, j < i → l.get? j = some b → f b = none := by
  induction l with
  | nil => simp
  | cons a rest ih =>
    rw [List.findSome?_cons]
    cases hfa : f a with
    | some w =>
      constructor
      · intro h
        refine ⟨0, a, List.get?_cons_zero, ?_, ?_⟩
        · rw [hfa]; exact h
        · intro j b hj
          omega
      · rintro ⟨i, x, hget, hfx, hmin⟩
        cases i with
        | zero =>
          simp only [List.get?_cons_zero, Option.some.injEq] at hget
          subst hget
          rw [hfa] at hfx
          exact hfx
        | succ j =>
          have h0 := hmin 0 a (Nat.succ_pos j) List.get?_cons_zero
          rw [hfa] at h0
          exact absurd h0 (by simp)
    | none =>
      rw [ih]
      constructor
      · rintro ⟨i, x, hget, hfx, hmin⟩
        refine ⟨i + 1, x, by simpa using hget, hfx, ?_⟩
        intro j b hj hgetj
        cases j with
        | zero =>
          simp only [List.get?_cons_zero, Option.some.injEq] at hgetj
          subst hgetj
          exact hfa
        | succ j2 =>
          exact hmin j2 b (by omega) (by simpa using hgetj)
      · rintro ⟨i, x, hget, hfx, hmin⟩
        cases i with
        | zero =>
          simp only [List.get?_cons_zero, Option.some.injEq] at hget
          subst hget
          rw [hfa] at hfx
          exact absurd hfx (by simp)
        | succ j =>
          exact ⟨j, x, by simpa using hget,
            hfx, fun j2 b hj2 hg => hmin (j2 + 1) b (by omega) (by simpa using hg)⟩

/-- A block only ever contributes an object or an array. -/
theorem parseStructured_isStructured (parse : String → Option JsonValue)
    (b : FencedBlock) (v : JsonValue)
    (h : parseStructured parse b = some v) : isStructured v = true := by
  unfold parseStructured at h
  split at h
  · split at h
    · rename_i hs
      cases h
      exact hs
    · exact absurd h (by simp)
  · exact absurd h (by simp)

/-- C5: the fenced-code-block step returns the parse of the first block —
in the priority order json-tagged blocks (source order), then untagged
blocks (source order), then remaining blocks — whose body parses as JSON
with an object or array shape, and a bare scalar is never returned. -/
theorem extract_json_fenced_priority (parse : String → Option JsonValue)
    (text : String) :
    (∀ v, extract_json_fenced_step parse text = some v ↔
      ∃ i b, (orderBlocks (scanFencedBlocks text)).get? i = some b ∧
        parseStructured parse b = some v ∧
        ∀ j b2, j < i → (orderBlocks (scanFencedBlocks text)).get? j = some b2 →
          parseStructured parse b2 = none) ∧
    (∀ v, extract_json_fenced_step parse text = some v → isStructured v = true) := by
  constructor
  · intro v
    exact findSome?_first (parseStructured parse) (orderBlocks (scanFencedBlocks text)) v
  · intro v h
    obtain ⟨i, b, _, hp, _⟩ :=
      (findSome?_first (parseStructured parse)
        (orderBlocks (scanFencedBlocks text)) v).mp h
    exact parseStructured_isStructured parse b v hp

/-- Witness for C5: a json-tagged fenced block whose body parses as an array
is extracted, and the extracted value is structured. -/
theorem extract_json_fenced_priority_witness :
    isStructured (JsonValue.arr []) = true :=
  (extract_json_fenced_priority sampleParse "```json\nAAA\n```").2 (JsonValue.arr []) rfl

end Nllm
